import Mathlib

/-!
Verification of the StreamToHandshake lowering pass
(`lib/Conversion/StreamToHandshake/StreamToHandshake.cpp`).

The pass lowers stream operators (create, map, filter, reduce, split,
combine, sink) to handshake dataflow circuits.  This file shallowly embeds

  * the token-level behaviour of the circuits synthesized by
    `CreateOpLowering`, `ReduceOpLowering`, `FilterOpLowering` and
    `CombineOpLowering` (payload tuples are `(data, eos)` pairs; sequential
    `BufferOp`s become explicit state threaded through activations),
  * the type conversion (`StreamTypeConverter`) and the type preconditions
    asserted by the reduce and create patterns and by `replaceWithInstance`,
  * the symbol uniquer (`SymbolUniquer::getUniqueSymName`),
  * the control-token resolver (`getCtrlSignal` / `resolveNewOperands`),
  * the fork/sink materialization step (`materializeForksAndSinks`).

Machine integers: the create circuit's counter is an `i64` value updated by
`arith.addi` and compared with `arith.cmpi eq`, so it is modelled as a
natural number reduced modulo `2 ^ 64`; payload data is carried opaquely as
`Int` (the circuits never compute on payloads except through the
user-supplied body, which is modelled as an abstract function).
-/

/-! ## Create circuit (`CreateOpLowering::matchAndRewrite`)

The synthesized unit contains
  * `dataBuf`: a sequential `BufferOp` of depth `bufSize = values.size()`
    preloaded with the literal values (`initValues` holds them reversed
    because the buffer emits in reverse; this model keeps the list in
    emission order).  Its input is the constant `bubble` (value 0), so once
    the literals are drained it emits zeros.
  * `cnt`: a depth-1 sequential `BufferOp` with initial contents `{0}` whose
    input is rebound to `addi cnt 1`, so it holds the activation index.
  * `finished`: `cmpi eq cnt sizeConst`, packed with the buffer output as
    the `(data, eos)` tuple returned each activation.
-/

/-- State of the create circuit: the FIFO contents of the literal data
buffer and the `i64` contents of the counter register (as a residue
modulo `2 ^ 64`). -/
structure CreateState where
  dataBuf : List Int
  cnt : Nat
deriving DecidableEq

/-- Initial state: `dataBuf` preloaded with the literal values (in emission
order) and the counter register holding 0. -/
def createInit (values : List Int) : CreateState :=
  { dataBuf := values, cnt := 0 }

/-- One activation of the create circuit: emit the front of the data buffer
paired with the `cnt == bufSize` comparison, then advance: the buffer
dequeues its front and enqueues the `bubble` constant 0, and the counter is
rebound to `addi cnt 1` (`i64` wrap-around). -/
def createStep (bufSize : Nat) (st : CreateState) : (Int × Bool) × CreateState :=
  ((st.dataBuf.headD 0, st.cnt == bufSize % 2 ^ 64),
   { dataBuf := st.dataBuf.tail ++ [0], cnt := (st.cnt + 1) % 2 ^ 64 })

/-- State of the create circuit for `values` before activation `k`. -/
def createStateAt (values : List Int) : Nat → CreateState
  | 0 => createInit values
  | k + 1 => (createStep values.length (createStateAt values k)).2

/-- The `(data, eos)` tuple emitted by the create circuit on its `k`-th
activation (0-based). -/
def createNth (values : List Int) (k : Nat) : Int × Bool :=
  (createStep values.length (createStateAt values k)).1

/-! ## Reduce circuit (`ReduceOpLowering::matchAndRewrite`)

The synthesized unit accumulates into a depth-1 sequential `BufferOp`
initialized with the reduction's identity value.  Each activation unpacks
the input tuple into `(data, eos)` and routes the buffer output through
`ConditionalBranchOp`s on `eos`:

  * `eos = false`: the buffer output feeds the user body together with
    `data`; the body result is the buffer's rebound input, so the new
    accumulator is stored and nothing is emitted.
  * `eos = true`: the accumulator is packed twice, as `(acc, 0)` (`eosFalse`
    constant) and as `(acc, eos)`, and a depth-2 sequential selection buffer
    with `initValues {1, 0}` drives a `MuxOp` that emits first the
    `eos = false` tuple and then the `eos = true` tuple (the buffer emits
    its initial contents in reverse).  Tokens arriving after the first
    `eos = true` can never fire the body again (the accumulator buffer is
    drained), so processing stops there.
-/

/-- The `initValues` attribute of the reduce circuit's selection buffer. -/
def reduceSelectInitValues : List Nat := [1, 0]

/-- Sequence of indices actually produced by the selection buffer: a
sequential buffer emits its `initValues` in reverse. -/
def reduceSelectSeq : List Nat := reduceSelectInitValues.reverse

/-- The output `MuxOp`: index 0 selects the `(acc, false)` tuple, index 1
selects the `(acc, true)` tuple. -/
def reduceMux (sel : Nat) (inputs : List (Int × Bool)) : Int × Bool :=
  inputs.getD sel (0, false)

/-- The two tuples emitted once EOS arrives, in the order dictated by the
selection buffer driving the mux. -/
def reduceEmit (acc : Int) : List (Int × Bool) :=
  reduceSelectSeq.map (fun s => reduceMux s [(acc, false), (acc, true)])

/-- Token-level run of the reduce circuit: `f` is the user-supplied body,
the first argument the current accumulator register contents.  Returns the
final accumulator contents and the list of emitted `(value, eos)` tuples. -/
def reduceRun (f : Int → Int → Int) : Int → List (Int × Bool) → Int × List (Int × Bool)
  | acc, [] => (acc, [])
  | acc, (d, e) :: rest =>
    if e then (acc, reduceEmit acc)
    else reduceRun f (f acc d) rest

/-- Control tokens emitted by the reduce circuit: `ctrlBr` branches the
body's control token on `eos`, so while `eos` is false the token goes to
the (sunk) false side and no control output occurs; on the `eos = true`
activation `ctrlBr.trueResult` feeds both ports of the output control mux,
producing one control token per emitted tuple. -/
def reduceCtrlOut : List (Int × Bool) → List Unit
  | [] => []
  | (_, e) :: rest => if e then [(), ()] else reduceCtrlOut rest

/-! ## Filter circuit (`FilterOpLowering::matchAndRewrite`)

Each activation unpacks `(data, eos)`, runs the predicate body on `data`,
computes `condOrEos = ori cond eos`, and feeds the repacked tuple and the
stream control token through two `ConditionalBranchOp`s both gated on
`condOrEos`; only the true results are returned. -/

/-- The gate condition `condOrEos` of the filter circuit. -/
def filterGate (p : Int → Bool) (t : Int × Bool) : Bool := p t.1 || t.2

/-- One activation of the filter circuit: the payload tuple and the control
token each pass through a conditional branch on `filterGate`; `none` means
the token is swallowed by the branch's false side. -/
def filterActivation (p : Int → Bool) (t : Int × Bool) :
    Option (Int × Bool) × Option Unit :=
  (if filterGate p t then some t else none,
   if filterGate p t then some () else none)

/-- Payload tuples observable on the filter circuit's output for a given
input token sequence. -/
def filterRun (p : Int → Bool) (toks : List (Int × Bool)) : List (Int × Bool) :=
  toks.filterMap (fun t => (filterActivation p t).1)

/-- Control tokens observable on the filter circuit's output. -/
def filterCtrlRun (p : Int → Bool) (toks : List (Int × Bool)) : List Unit :=
  toks.filterMap (fun t => (filterActivation p t).2)

/-! ## Combine circuit (`CombineOpLowering::matchAndRewrite`) -/

/-- Left-fold reduction tree over a nonempty value list, as built by
`buildReduceTree`; the source asserts `values.size() > 0`, modelled by
returning `none` on the empty list. -/
def buildReduceTree (f : Bool → Bool → Bool) : List Bool → Option Bool
  | [] => none
  | v :: vs => some (vs.foldl f v)

/-- Output EOS of one joint combine activation: the `arith.ori` reduction
tree over all input EOS flags. -/
def combineEos (eosInputs : List Bool) : Option Bool :=
  buildReduceTree (fun a b => a || b) eosInputs

/-- The `JoinOp` barrier placed on the combine circuit's control inputs:
the body's control fires exactly when every input control token is
present. -/
def joinFires (present : List Bool) : Bool := present.all (fun c => c)

/-! ## Type conversion and type preconditions

`StreamTypeConverter` maps `StreamType` to the pair
`[tuple(element, i1), none]` and leaves every other type unchanged.  Only
two-element tuples ever occur in this pass, so the tuple constructor is
binary. -/

/-- MLIR types occurring in the pass. -/
inductive MLIRType where
  | intTy (width : Nat)
  | tupleTy (fst snd : MLIRType)
  | noneTy
  | streamTy (element : MLIRType)
  | floatTy
deriving DecidableEq

/-- The `StreamTypeConverter` conversions: a stream type becomes a
`(tuple(element, i1), none)` pair of types; all other types pass through. -/
def convertType : MLIRType → List MLIRType
  | MLIRType.streamTy t => [MLIRType.tupleTy t (MLIRType.intTy 1), MLIRType.noneTy]
  | t => [t]

/-- Whether a type `isa<StreamType>`. -/
def isStreamType : MLIRType → Bool
  | MLIRType.streamTy _ => true
  | _ => false

/-- Whether a type `isa<IntegerType>`. -/
def isIntType : MLIRType → Bool
  | MLIRType.intTy _ => true
  | _ => false

/-- The assertion of `replaceWithInstance`: every result type of the
replaced operation must satisfy `isa<StreamType>` ("can currently only
replace stream types"). -/
def replaceWithInstanceCheck (resultTypes : List MLIRType) : Bool :=
  resultTypes.all isStreamType

/-- The accumulator type computed by `ReduceOpLowering`: convert the result
type, assert `resultTypes[0].isa<TupleType>()` (modelled by `none` on
failure), and take the tuple's first element type. -/
def reduceConvertedAccType (resTy : MLIRType) : Option MLIRType :=
  match convertType resTy with
  | MLIRType.tupleTy a _ :: _ => some a
  | _ => none

/-- The type precondition asserted by `ReduceOpLowering`: the converted
result's first component is a tuple whose first element type equals `i64`
("currently, only i64 buffers are supported"). -/
def reduceTypeCheck (resTy : MLIRType) : Bool :=
  match reduceConvertedAccType resTy with
  | some t => t == MLIRType.intTy 64
  | none => false

/-- All assertions a reduce result type must pass during lowering: the
buffer-width assertion of `ReduceOpLowering` and the stream-type assertion
of `replaceWithInstance` on the single result. -/
def reduceLoweringChecks (resTy : MLIRType) : Bool :=
  reduceTypeCheck resTy && replaceWithInstanceCheck [resTy]

/-- The type precondition asserted by `CreateOpLowering`:
`elementType.isa<IntegerType>()`. -/
def createTypeCheck (elementType : MLIRType) : Bool := isIntType elementType

/-! ## Fork/sink materialization (`materializeForksAndSinks`)

The pass runs CIRCT's `addForkOps` and `addSinkOps` over every
`handshake::FuncOp` and then `verifyAllValuesHasOneUse`; any failure makes
the whole pass fail.  A unit body is abstracted as the list of per-value
consumer counts. -/

/-- Modelled from the spec: CIRCT's `addForkOps` (declared in the handshake
headers, its body is not part of this repository) inserts an explicit fork
for every value with more than one consumer; the original value is then
consumed once (by the fork) and each fork result is consumed once by one of
the previous consumers. -/
def addForkOps (uses : List Nat) : List Nat :=
  (uses.map (fun c => if 1 < c then 1 :: List.replicate c 1 else [c])).flatten

/-- Modelled from the spec: CIRCT's `addSinkOps` (declared in the handshake
headers, its body is not part of this repository) inserts an explicit sink
for every value with zero consumers, which is then consumed once. -/
def addSinkOps (uses : List Nat) : List Nat :=
  uses.map (fun c => if c == 0 then 1 else c)

/-- Modelled from the spec: CIRCT's `verifyAllValuesHasOneUse` succeeds
exactly when every value has exactly one consumer. -/
def verifyAllValuesHasOneUse (uses : List Nat) : Bool :=
  uses.all (fun c => c == 1)

/-- The pass's `materializeForksAndSinks`: for every synthesized
`handshake::FuncOp` run `addForkOps`, then `addSinkOps`, then
`verifyAllValuesHasOneUse`; `false` (pass failure) as soon as one unit
fails verification. -/
def materializeForksAndSinks (units : List (List Nat)) : Bool :=
  units.all (fun uses => verifyAllValuesHasOneUse (addSinkOps (addForkOps uses)))

/-! ## Symbol uniquer (`SymbolUniquer`)

`getBareOpName` replaces `.` by `_` in the operation name;
`getUniqueSymName` tries the bare name, then `name_1`, `name_2`, ... until
a name not contained in `usedNames` is found (`llvm::formatv("{0}_{1}")`
prints the counter in decimal, i.e. `Nat.repr`), and immediately reserves
the chosen name.  The C++ `while` loop is modelled with explicit fuel
`used.card + 1`, which the pigeonhole argument below shows is always
enough. -/

/-- Bare operation name: the operation name with `.` replaced by `_`. -/
def getBareOpName (name : String) : String :=
  name.map (fun c => if c == '.' then '_' else c)

/-- The candidate tried in iteration `cnt` of the uniquer's loop: the bare
name first, then `name_1`, `name_2`, ... -/
def symCandidate (opName : String) : Nat → String
  | 0 => opName
  | cnt + 1 => opName ++ "_" ++ Nat.repr (cnt + 1)

/-- The uniquer's search loop with explicit fuel. -/
def getUniqueSymNameAux (used : Finset String) (opName : String) : Nat → Nat → String
  | 0, cnt => symCandidate opName cnt
  | fuel + 1, cnt =>
    if symCandidate opName cnt ∈ used then getUniqueSymNameAux used opName fuel (cnt + 1)
    else symCandidate opName cnt

/-- `SymbolUniquer::getUniqueSymName`: find a free name starting from the
bare operation name and immediately add it to the used-name set
(`addSymbol`). -/
def getUniqueSymName (used : Finset String) (opName : String) : String × Finset String :=
  (getUniqueSymNameAux used (getBareOpName opName) (used.card + 1) 0,
   insert (getUniqueSymNameAux used (getBareOpName opName) (used.card + 1) 0) used)

/-- One pass run: lower a list of operator instances (given by their
operation names) sharing one `SymbolUniquer` seeded with the pre-existing
symbol set; returns the synthesized names in order and the final used-name
set. -/
def runUniquer (used : Finset String) : List String → List String × Finset String
  | [] => ([], used)
  | op :: ops =>
    ((getUniqueSymName used op).1 ::
       (runUniquer (getUniqueSymName used op).2 ops).1,
     (runUniquer (getUniqueSymName used op).2 ops).2)

/-- Decimal digit value of a digit character, inverse of `Nat.digitChar`
on digits 0-9 (used only to prove `Nat.repr` injective). -/
def decodeDigitChar (c : Char) : Nat := c.toNat - 48

/-- Decode a digit string from an accumulator, inverse of the digit-list
construction performed by `Nat.toDigitsCore`. -/
def decodeDigitsFrom (a : Nat) (cs : List Char) : Nat :=
  cs.foldl (fun acc c => 10 * acc + decodeDigitChar c) a

/-! ## Control-token resolution (`getCtrlSignal` / `resolveNewOperands`)

`getCtrlSignal` asserts its operand list is nonempty, then inspects the
first operand: a block argument resolves to the owning block's trailing
control argument, a `handshake::InstanceOp` result resolves to the call's
trailing control result, and otherwise the walk recurses into the
producer's operand list.  The C++ recursion has no termination guard, so
the model carries explicit fuel. -/

/-- An SSA value: a block argument or a result of operation `o`. -/
inductive HVal where
  | blockArg (b : Nat)
  | opResult (o : Nat)
deriving DecidableEq

/-- The facts about a producer operation the resolver inspects: whether it
is a `handshake::InstanceOp` and its operand list. -/
structure HOp where
  isInst : Bool
  operands : List HVal

/-- A lowered block's operation table. -/
structure HGraph where
  defOp : Nat → HOp

/-- A resolved control token: a block's trailing control argument or an
instance's trailing control result. -/
inductive CtrlResult where
  | blockCtrl (b : Nat)
  | instCtrl (o : Nat)
deriving DecidableEq

/-- Outcome of the resolver: a control token, a violation of the
`operands.size() > 0` assertion, or exhausted fuel (the C++ walk would not
have returned). -/
inductive CtrlOutcome where
  | ok (c : CtrlResult)
  | assertFail
  | outOfFuel
deriving DecidableEq

/-- `getCtrlSignal` with explicit fuel. -/
def getCtrlSignal (g : HGraph) : Nat → List HVal → CtrlOutcome
  | 0, _ => CtrlOutcome.outOfFuel
  | _ + 1, [] => CtrlOutcome.assertFail
  | fuel + 1, v :: _ =>
    match v with
    | HVal.blockArg b => CtrlOutcome.ok (CtrlResult.blockCtrl b)
    | HVal.opResult o =>
      if (g.defOp o).isInst then CtrlOutcome.ok (CtrlResult.instCtrl o)
      else getCtrlSignal g fuel (g.defOp o).operands

/-- The control-appending step of `resolveNewOperands`: with zero remapped
operands the enclosing block's trailing control argument is used, otherwise
`getCtrlSignal` runs on the remapped operands. -/
def resolveNewOperandsCtrl (g : HGraph) (blockId : Nat) (remapped : List HVal)
    (fuel : Nat) : CtrlOutcome :=
  if remapped.isEmpty then CtrlOutcome.ok (CtrlResult.blockCtrl blockId)
  else getCtrlSignal g fuel remapped

/-- The first-operand backward walk reaches a block argument or an
instance result, resolving to control token `c`. -/
inductive ResolvesCtrl (g : HGraph) : List HVal → CtrlResult → Prop where
  | viaBlockArg (b : Nat) (rest : List HVal) :
      ResolvesCtrl g (HVal.blockArg b :: rest) (CtrlResult.blockCtrl b)
  | viaInst (o : Nat) (rest : List HVal) :
      (g.defOp o).isInst = true →
      ResolvesCtrl g (HVal.opResult o :: rest) (CtrlResult.instCtrl o)
  | viaStep (o : Nat) (rest : List HVal) (c : CtrlResult) :
      (g.defOp o).isInst = false →
      ResolvesCtrl g (g.defOp o).operands c →
      ResolvesCtrl g (HVal.opResult o :: rest) c

/-- The first-operand backward walk reaches a producer with zero operands
(e.g. a constant). -/
inductive ReachesEmpty (g : HGraph) : List HVal → Prop where
  | here : ReachesEmpty g []
  | step (o : Nat) (rest : List HVal) :
      (g.defOp o).isInst = false →
      ReachesEmpty g (g.defOp o).operands →
      ReachesEmpty g (HVal.opResult o :: rest)

/-- A small concrete lowered block used to exercise the control resolver:
operation 0 is an ordinary operation consuming a result of operation 1,
operation 1 is a `handshake::InstanceOp`, and operation 2 is an ordinary
zero-operand operation (e.g. a constant). -/
def ctrlExampleGraph : HGraph :=
  { defOp := fun o =>
      if o == 0 then { isInst := false, operands := [HVal.opResult 1] }
      else if o == 1 then { isInst := true, operands := [] }
      else { isInst := false, operands := [] } }

/-! ## Theorems -/

theorem createStateAt_cnt (values : List Int) (k : Nat) :
    (createStateAt values k).cnt = k % 2 ^ 64 := by
  induction k with
  | zero => rfl
  | succ k ih =>
    simp only [createStateAt, createStep, ih]
    omega

theorem createStateAt_dataBuf (values : List Int) (k : Nat) (h : k ≤ values.length) :
    (createStateAt values k).dataBuf = values.drop k ++ List.replicate k 0 := by
  induction k with
  | zero => simp [createStateAt, createInit]
  | succ k ih =>
    have hk : k < values.length := h
    simp only [createStateAt, createStep, ih (Nat.le_of_lt hk)]
    rw [List.drop_eq_getElem_cons hk, List.cons_append, List.tail_cons,
      List.append_assoc, List.replicate_succ' k (0 : Int)]

/-- C1 (amended): for `create(values, i64)` and any `k < n = values.length`
(with `n` below the `i64` wrap bound), the `k`-th activation emits
`(values[k], eos = false)`; the EOS flag only appears on the `(n+1)`-th
activation, which emits `(0, eos = true)` (payload 0 is the buffer's refill
constant).  In particular `create([5,6,7], i64)` emits
`(5,false), (6,false), (7,false), (0,true)`, not `(7, true)` on the third
activation. -/
theorem create_emits_elements_then_eos (values : List Int) (k : Nat)
    (hlen : values.length < 2 ^ 64) (hk : k < values.length) :
    createNth values k = (values.getD k 0, false) ∧
    createNth values values.length = (0, true) := by
  constructor
  · unfold createNth createStep
    rw [createStateAt_dataBuf values k (Nat.le_of_lt hk), createStateAt_cnt]
    rw [List.drop_eq_getElem_cons hk]
    simp only [List.cons_append, List.headD_cons]
    rw [List.getD_eq_getElem _ _ hk]
    have h1 : k % 2 ^ 64 = k := Nat.mod_eq_of_lt (Nat.lt_trans hk hlen)
    have h2 : values.length % 2 ^ 64 = values.length := Nat.mod_eq_of_lt hlen
    rw [h1, h2]
    simp [Nat.ne_of_lt hk]
  · unfold createNth createStep
    rw [createStateAt_dataBuf values values.length (Nat.le_refl _), createStateAt_cnt]
    simp only [List.drop_length, List.nil_append]
    cases values with
    | nil => simp
    | cons a as => simp [List.replicate_succ]

/-- Witness for `create_emits_elements_then_eos` at `values = [5,6,7]`,
`k = 1`. -/
theorem create_emits_elements_then_eos_witness :
    ([5, 6, 7] : List Int).length < 2 ^ 64 ∧ 1 < ([5, 6, 7] : List Int).length ∧
    (createNth [5, 6, 7] 1 = (([5, 6, 7] : List Int).getD 1 0, false) ∧
     createNth [5, 6, 7] ([5, 6, 7] : List Int).length = (0, true)) :=
  ⟨by decide, by decide, create_emits_elements_then_eos [5, 6, 7] 1 (by decide) (by decide)⟩

/-- C1 (counterexample): the third activation of the circuit for
`create([5,6,7], i64)` emits `(7, false)`, not `(7, true)` as the claim
states; the counter (0-based) still differs from the list length there. -/
theorem create_third_activation_not_eos :
    createNth [5, 6, 7] 2 = (7, false) ∧
    ¬ createNth [5, 6, 7] 2 = (7, true) := by
  constructor <;> decide

/-- C2: the create circuit's counter register holds `k % 2 ^ 64` before
activation `k` (it starts at 0 and is incremented by one per activation),
and within the first `2 ^ 64` activations the emitted EOS flag — the
equality comparison of the counter with `n = values.length` — is true
exactly on activation index `n`, i.e. on the `(n+1)`-th activation, one
past the last element. -/
theorem create_eos_exactly_at_length (values : List Int) (k : Nat)
    (hlen : values.length < 2 ^ 64) (hk : k < 2 ^ 64) :
    ((createNth values k).2 = true ↔ k = values.length) ∧
    (createStateAt values k).cnt = k % 2 ^ 64 := by
  refine ⟨?_, createStateAt_cnt values k⟩
  unfold createNth createStep
  rw [createStateAt_cnt]
  rw [Nat.mod_eq_of_lt hk, Nat.mod_eq_of_lt hlen]
  simp

/-- Witness for `create_eos_exactly_at_length` at `values = [5,6,7]`,
`k = 3`. -/
theorem create_eos_exactly_at_length_witness :
    ([5, 6, 7] : List Int).length < 2 ^ 64 ∧ (3 : Nat) < 2 ^ 64 ∧
    (((createNth [5, 6, 7] 3).2 = true ↔ 3 = ([5, 6, 7] : List Int).length) ∧
     (createStateAt [5, 6, 7] 3).cnt = 3 % 2 ^ 64) :=
  ⟨by decide, by decide, create_eos_exactly_at_length [5, 6, 7] 3 (by decide) (by decide)⟩

/-- C3: while input EOS is false the reduce circuit produces neither a
payload nor a control output (the body result is only fed back into the
accumulator register); the activation carrying `eos = true` makes the
circuit emit the accumulated value tagged `eos = false` and, one output
activation later (sequenced by the 2-deep selection register feeding the
mux), the same value tagged `eos = true`, with one control token per
emitted tuple. -/
theorem reduce_silent_then_emits_twice (f : Int → Int → Int) (initVal d : Int)
    (xs : List (Int × Bool)) (h : ∀ x ∈ xs, x.2 = false) :
    (reduceRun f initVal (xs ++ [(d, true)])).2 =
      [(xs.foldl (fun a x => f a x.1) initVal, false),
       (xs.foldl (fun a x => f a x.1) initVal, true)] ∧
    (reduceRun f initVal xs).2 = [] ∧
    reduceCtrlOut (xs ++ [(d, true)]) = [(), ()] ∧
    reduceCtrlOut xs = [] := by
  induction xs generalizing initVal with
  | nil =>
    simp [reduceRun, reduceCtrlOut, reduceEmit, reduceSelectSeq,
      reduceSelectInitValues, reduceMux]
  | cons x rest ih =>
    obtain ⟨xd, xe⟩ := x
    have hxe : xe = false := h (xd, xe) (List.mem_cons_self _ _)
    subst hxe
    have hrest : ∀ y ∈ rest, y.2 = false := fun y hy => h y (List.mem_cons_of_mem _ hy)
    simpa [reduceRun, reduceCtrlOut] using ih (f initVal xd) hrest

/-- Witness for `reduce_silent_then_emits_twice`:
`reduce([1,2,3,4], identity = 0, add)` emits `(10, false)` then
`(10, true)` and nothing before that. -/
theorem reduce_silent_then_emits_twice_witness :
    (∀ x ∈ ([(1, false), (2, false), (3, false), (4, false)] : List (Int × Bool)),
        x.2 = false) ∧
    ((reduceRun (fun a b => a + b) 0
        (([(1, false), (2, false), (3, false), (4, false)] : List (Int × Bool)) ++
          [((0 : Int), true)])).2 =
      [(([(1, false), (2, false), (3, false), (4, false)] : List (Int × Bool)).foldl
          (fun a x => (fun a b => a + b) a x.1) 0, false),
       (([(1, false), (2, false), (3, false), (4, false)] : List (Int × Bool)).foldl
          (fun a x => (fun a b => a + b) a x.1) 0, true)] ∧
     (reduceRun (fun a b => a + b) 0
        ([(1, false), (2, false), (3, false), (4, false)] : List (Int × Bool))).2 = [] ∧
     reduceCtrlOut (([(1, false), (2, false), (3, false), (4, false)] : List (Int × Bool)) ++
        [((0 : Int), true)]) = [(), ()] ∧
     reduceCtrlOut ([(1, false), (2, false), (3, false), (4, false)] : List (Int × Bool)) =
       []) :=
  ⟨by decide,
   reduce_silent_then_emits_twice (fun a b => a + b) 0 0
     [(1, false), (2, false), (3, false), (4, false)] (by decide)⟩

theorem filterRun_all_data (p : Int → Bool) (xs : List (Int × Bool))
    (h : ∀ x ∈ xs, x.2 = false) :
    filterRun p xs = xs.filter (fun x => p x.1) := by
  induction xs with
  | nil => rfl
  | cons x rest ih =>
    have hx : x.2 = false := h x (List.mem_cons_self _ _)
    have hrest : ∀ y ∈ rest, y.2 = false := fun y hy => h y (List.mem_cons_of_mem _ hy)
    have ihr := ih hrest
    rw [filterRun] at ihr ⊢
    rw [List.filterMap_cons, ihr, List.filter_cons]
    by_cases hp : p x.1 <;> simp [filterActivation, filterGate, hx, hp]

/-- C4: each filter activation emits the payload tuple exactly when
`predicate OR eos` holds, and emits the stream control token exactly when
the payload tuple is emitted (no control token on a suppressed
activation); consequently, for a stream whose elements all carry
`eos = false` followed by the terminal `eos = true` activation, the output
payload sequence is exactly the elements satisfying the predicate plus the
terminal EOS activation. -/
theorem filter_emits_iff_pred_or_eos (p : Int → Bool) (xs : List (Int × Bool))
    (d : Int) (t : Int × Bool) (h : ∀ x ∈ xs, x.2 = false) :
    filterRun p (xs ++ [(d, true)]) = xs.filter (fun x => p x.1) ++ [(d, true)] ∧
    (filterActivation p t).1.isSome = filterGate p t ∧
    (filterActivation p t).2.isSome = (filterActivation p t).1.isSome ∧
    filterCtrlRun p (xs ++ [(d, true)]) =
      (filterRun p (xs ++ [(d, true)])).map (fun _ => ()) := by
  refine ⟨?_, ?_, ?_, ?_⟩
  · have h1 := filterRun_all_data p xs h
    rw [filterRun] at h1 ⊢
    rw [List.filterMap_append, h1]
    simp [filterActivation, filterGate]
  · rw [filterActivation]
    by_cases hg : filterGate p t <;> simp [hg]
  · rw [filterActivation]
    by_cases hg : filterGate p t <;> simp [hg]
  · rw [filterRun, filterCtrlRun, List.map_filterMap]
    congr 1
    funext u
    rw [filterActivation]
    by_cases hg : filterGate p u <;> simp [hg]

/-- Witness for `filter_emits_iff_pred_or_eos` with predicate `x == 2` on
`[(1,false), (2,false)]` terminated by `(3, true)`. -/
theorem filter_emits_iff_pred_or_eos_witness :
    (∀ x ∈ ([(1, false), (2, false)] : List (Int × Bool)), x.2 = false) ∧
    (filterRun (fun x => x == 2) (([(1, false), (2, false)] : List (Int × Bool)) ++
        [((3 : Int), true)]) =
      ([(1, false), (2, false)] : List (Int × Bool)).filter (fun x => x.1 == 2) ++
        [((3 : Int), true)] ∧
     (filterActivation (fun x => x == 2) ((5 : Int), false)).1.isSome =
       filterGate (fun x => x == 2) ((5 : Int), false) ∧
     (filterActivation (fun x => x == 2) ((5 : Int), false)).2.isSome =
       (filterActivation (fun x => x == 2) ((5 : Int), false)).1.isSome ∧
     filterCtrlRun (fun x => x == 2) (([(1, false), (2, false)] : List (Int × Bool)) ++
         [((3 : Int), true)]) =
       (filterRun (fun x => x == 2) (([(1, false), (2, false)] : List (Int × Bool)) ++
         [((3 : Int), true)])).map (fun _ => ())) :=
  ⟨by decide,
   filter_emits_iff_pred_or_eos (fun x => x == 2) [(1, false), (2, false)] 3
     ((5 : Int), false) (by decide)⟩

theorem verify_after_materialize (uses : List Nat) :
    verifyAllValuesHasOneUse (addSinkOps (addForkOps uses)) = true := by
  rw [verifyAllValuesHasOneUse, List.all_eq_true]
  intro c hc
  simp only [addSinkOps, List.mem_map] at hc
  obtain ⟨c0, hc0, rfl⟩ := hc
  simp only [addForkOps, List.mem_flatten, List.mem_map] at hc0
  obtain ⟨chunk, ⟨c1, _, rfl⟩, hmem⟩ := hc0
  by_cases h1 : 1 < c1
  · simp only [h1, if_true, List.mem_cons] at hmem
    rcases hmem with rfl | hrep
    · simp
    · rw [List.eq_of_mem_replicate hrep]
      simp
  · simp only [h1, if_false, List.mem_singleton] at hmem
    subst hmem
    have h01 : c0 = 0 ∨ c0 = 1 := by omega
    rcases h01 with rfl | rfl <;> simp

/-- C5: after `materializeForksAndSinks` runs `addForkOps` (explicit fork
for every multiply-consumed value) and `addSinkOps` (explicit sink for
every unconsumed value) on a synthesized unit, every value has exactly one
consumer, so `verifyAllValuesHasOneUse` succeeds on every unit and the
pass-level check (which fails the pass on any violation) succeeds. -/
theorem materialize_forks_sinks_single_use (units : List (List Nat)) (uses : List Nat) :
    materializeForksAndSinks units = true ∧
    verifyAllValuesHasOneUse (addSinkOps (addForkOps uses)) = true := by
  refine ⟨?_, verify_after_materialize uses⟩
  rw [materializeForksAndSinks, List.all_eq_true]
  intro u _
  exact verify_after_materialize u

theorem foldl_or_eq_any (vs : List Bool) (v : Bool) :
    vs.foldl (fun a b => a || b) v = (v || vs.any (fun b => b)) := by
  induction vs generalizing v with
  | nil => simp
  | cons x rest ih => simp [ih, Bool.or_assoc]

/-- C7: the combine circuit's output EOS flag for a joint activation is the
`or` reduction tree over all input EOS flags, i.e. the logical OR of the
`k` input flags (the source asserts the list is nonempty), and the body is
guarded by a `JoinOp` barrier that fires exactly when all `k` input control
tokens are present. -/
theorem combine_or_eos_and_join_barrier (flags present : List Bool) :
    combineEos flags =
      (if flags.isEmpty then none else some (flags.any (fun b => b))) ∧
    (joinFires present = true ↔ ∀ c ∈ present, c = true) := by
  constructor
  · cases flags with
    | nil => rfl
    | cons x rest => simp [combineEos, buildReduceTree, foldl_or_eq_any]
  · rw [joinFires, List.all_eq_true]

/-- C6 (counterexample): a reduce whose result type is the plain scalar
`i64` fails the lowering's own assertions — `replaceWithInstance` asserts
every replaced result type `isa<StreamType>`, and the converted result of a
scalar is not the tuple the pattern requires — while a stream-typed result
passes both checks.  So the lowering does not replace a reduce node with a
plain scalar result type. -/
theorem reduce_scalar_result_fails_checks :
    replaceWithInstanceCheck [MLIRType.intTy 64] = false ∧
    reduceLoweringChecks (MLIRType.intTy 64) = false ∧
    reduceLoweringChecks (MLIRType.streamTy (MLIRType.intTy 64)) = true := by
  refine ⟨rfl, rfl, rfl⟩

/-- C6 (amended): the reduce lowering requires a stream-typed result: the
combination of `ReduceOpLowering`'s converted-result assertions and
`replaceWithInstance`'s stream-type assertion succeeds exactly when the
reduce result type is `stream<i64>` — the accumulated scalar is delivered
as a stream (value then EOS), not as a plain scalar result. -/
theorem reduce_result_must_be_stream (t : MLIRType) :
    reduceLoweringChecks t = true ↔ t = MLIRType.streamTy (MLIRType.intTy 64) := by
  constructor
  · intro h
    rw [reduceLoweringChecks, Bool.and_eq_true] at h
    obtain ⟨h1, h2⟩ := h
    cases t with
    | streamTy e =>
      have hacc : reduceConvertedAccType (MLIRType.streamTy e) = some e := rfl
      simp only [reduceTypeCheck, hacc, beq_iff_eq] at h1
      rw [h1]
    | intTy w => simp [replaceWithInstanceCheck, isStreamType] at h2
    | tupleTy a b => simp [replaceWithInstanceCheck, isStreamType] at h2
    | noneTy => simp [replaceWithInstanceCheck, isStreamType] at h2
    | floatTy => simp [replaceWithInstanceCheck, isStreamType] at h2
  · intro h
    subst h
    rfl

/-- C8: the `ReduceOpLowering` assertion on the accumulator scalar type of
a stream-typed reduce result passes exactly for `i64` (any other scalar
aborts), and the `CreateOpLowering` assertion on the literal element type
passes exactly for integer types (any non-integer element type aborts);
for the supported types both patterns get past their precondition check. -/
theorem reduce_create_type_preconditions (t elemTy : MLIRType) :
    (reduceTypeCheck (MLIRType.streamTy t) = true ↔ t = MLIRType.intTy 64) ∧
    (createTypeCheck elemTy = true ↔ ∃ w, elemTy = MLIRType.intTy w) := by
  constructor
  · have hacc : reduceConvertedAccType (MLIRType.streamTy t) = some t := rfl
    simp only [reduceTypeCheck, hacc, beq_iff_eq]
  · cases elemTy <;> simp [createTypeCheck, isIntType]

theorem getCtrlSignal_sound (g : HGraph) (fuel : Nat) :
    ∀ (ops : List HVal) (c : CtrlResult),
      getCtrlSignal g fuel ops = CtrlOutcome.ok c → ResolvesCtrl g ops c := by
  induction fuel with
  | zero => intro ops c h; simp [getCtrlSignal] at h
  | succ fuel ih =>
    intro ops c h
    match ops with
    | [] => simp [getCtrlSignal] at h
    | HVal.blockArg b :: rest =>
      simp only [getCtrlSignal, CtrlOutcome.ok.injEq] at h
      rw [← h]
      exact ResolvesCtrl.viaBlockArg b rest
    | HVal.opResult o :: rest =>
      by_cases hI : (g.defOp o).isInst = true
      · simp only [getCtrlSignal, hI, if_true, CtrlOutcome.ok.injEq] at h
        rw [← h]
        exact ResolvesCtrl.viaInst o rest hI
      · simp only [getCtrlSignal, hI, if_false] at h
        exact ResolvesCtrl.viaStep o rest c ((Bool.not_eq_true _).mp hI)
          (ih (g.defOp o).operands c h)

theorem getCtrlSignal_empty_chain (g : HGraph) (ops : List HVal)
    (h : ReachesEmpty g ops) : ∀ fuel : Nat,
    getCtrlSignal g fuel ops = CtrlOutcome.assertFail ∨
    getCtrlSignal g fuel ops = CtrlOutcome.outOfFuel := by
  induction h with
  | here =>
    intro fuel
    cases fuel with
    | zero => right; rfl
    | succ f => left; rfl
  | step o rest hInst _ ih =>
    intro fuel
    cases fuel with
    | zero => right; rfl
    | succ f =>
      have hf := ih f
      simpa [getCtrlSignal, hInst] using hf

/-- C10: control resolution is partial.  If `getCtrlSignal` returns a
control token, then the backward walk that always follows a producer's
first operand reached a block argument (resolving to that block's trailing
control argument) or a `handshake::InstanceOp` (resolving to its trailing
result); a chain that reaches a zero-operand producer instead violates the
`operands.size() > 0` assertion (or exhausts the recursion) and never
yields a token; and the empty-operand case is handled only by the caller
`resolveNewOperands`, which substitutes the enclosing block's trailing
control argument. -/
theorem ctrl_resolution_partial (g : HGraph) (fuel fuel2 fuel3 : Nat)
    (ops ops2 : List HVal) (c c2 : CtrlResult) (b : Nat)
    (h1 : getCtrlSignal g fuel ops = CtrlOutcome.ok c)
    (h2 : ReachesEmpty g ops2) :
    ResolvesCtrl g ops c ∧
    (getCtrlSignal g fuel2 ops2 = CtrlOutcome.assertFail ∨
     getCtrlSignal g fuel2 ops2 = CtrlOutcome.outOfFuel) ∧
    getCtrlSignal g fuel2 ops2 ≠ CtrlOutcome.ok c2 ∧
    resolveNewOperandsCtrl g b [] fuel3 = CtrlOutcome.ok (CtrlResult.blockCtrl b) := by
  refine ⟨getCtrlSignal_sound g fuel ops c h1, getCtrlSignal_empty_chain g ops2 h2 fuel2,
    ?_, rfl⟩
  intro hok
  rcases getCtrlSignal_empty_chain g ops2 h2 fuel2 with he | he <;> rw [hok] at he <;>
    cases he

/-- Witness for `ctrl_resolution_partial` on `ctrlExampleGraph`: resolving
from a result of operation 0 walks to the instance operation 1, while
resolving from the zero-operand operation 2 hits the assertion. -/
theorem ctrl_resolution_partial_witness :
    getCtrlSignal ctrlExampleGraph 2 [HVal.opResult 0] =
      CtrlOutcome.ok (CtrlResult.instCtrl 1) ∧
    ReachesEmpty ctrlExampleGraph [HVal.opResult 2] ∧
    (ResolvesCtrl ctrlExampleGraph [HVal.opResult 0] (CtrlResult.instCtrl 1) ∧
     (getCtrlSignal ctrlExampleGraph 3 [HVal.opResult 2] = CtrlOutcome.assertFail ∨
      getCtrlSignal ctrlExampleGraph 3 [HVal.opResult 2] = CtrlOutcome.outOfFuel) ∧
     getCtrlSignal ctrlExampleGraph 3 [HVal.opResult 2] ≠
       CtrlOutcome.ok (CtrlResult.blockCtrl 0) ∧
     resolveNewOperandsCtrl ctrlExampleGraph 7 [] 3 =
       CtrlOutcome.ok (CtrlResult.blockCtrl 7)) :=
  ⟨rfl, ReachesEmpty.step 2 [] rfl ReachesEmpty.here,
   ctrl_resolution_partial ctrlExampleGraph 2 3 3 [HVal.opResult 0] [HVal.opResult 2]
     (CtrlResult.instCtrl 1) (CtrlResult.blockCtrl 0) 7 rfl
     (ReachesEmpty.step 2 [] rfl ReachesEmpty.here)⟩

theorem decodeDigitsFrom_cons (a : Nat) (c : Char) (cs : List Char) :
    decodeDigitsFrom a (c :: cs) = decodeDigitsFrom (10 * a + decodeDigitChar c) cs := rfl

theorem decode_digitChar : ∀ m : Nat, m < 10 → decodeDigitChar (Nat.digitChar m) = m := by
  decide

theorem decode_toDigitsCore (fuel : Nat) :
    ∀ (n : Nat) (ds : List Char), n < fuel →
      decodeDigitsFrom 0 (Nat.toDigitsCore 10 fuel n ds) = decodeDigitsFrom n ds := by
  induction fuel with
  | zero => intro n ds h; omega
  | succ fuel ih =>
    intro n ds h
    rw [Nat.toDigitsCore]
    by_cases h10 : n / 10 = 0
    · rw [if_pos h10, decodeDigitsFrom_cons, Nat.mul_zero, Nat.zero_add,
        decode_digitChar (n % 10) (by omega)]
      have hn : n % 10 = n := by omega
      rw [hn]
    · rw [if_neg h10]
      have hfuel : n / 10 < fuel := by omega
      rw [ih (n / 10) (Nat.digitChar (n % 10) :: ds) hfuel, decodeDigitsFrom_cons,
        decode_digitChar (n % 10) (by omega)]
      have hdm : 10 * (n / 10) + n % 10 = n := by omega
      rw [hdm]

theorem nat_repr_injective (m n : Nat) (h : Nat.repr m = Nat.repr n) : m = n := by
  have hdig : Nat.toDigits 10 m = Nat.toDigits 10 n := congrArg String.data h
  have hm : decodeDigitsFrom 0 (Nat.toDigits 10 m) = decodeDigitsFrom m [] :=
    decode_toDigitsCore (m + 1) m [] (Nat.lt_succ_self m)
  have hn : decodeDigitsFrom 0 (Nat.toDigits 10 n) = decodeDigitsFrom n [] :=
    decode_toDigitsCore (n + 1) n [] (Nat.lt_succ_self n)
  have hm' : decodeDigitsFrom 0 (Nat.toDigits 10 m) = m := hm
  have hn' : decodeDigitsFrom 0 (Nat.toDigits 10 n) = n := hn
  rw [← hm', ← hn', hdig]

theorem string_append_left_cancel (s a b : String) (h : s ++ a = s ++ b) : a = b := by
  apply String.ext
  have hd := congrArg String.data h
  rw [String.data_append, String.data_append] at hd
  exact List.append_cancel_left hd

theorem symCandidate_injective (opName : String) :
    Function.Injective (symCandidate opName) := by
  intro j k h
  match j, k with
  | 0, 0 => rfl
  | 0, k + 1 =>
    exfalso
    have hl := congrArg String.length h
    rw [symCandidate, symCandidate, String.length_append, String.length_append] at hl
    have : ("_" : String).length = 1 := rfl
    omega
  | j + 1, 0 =>
    exfalso
    have hl := congrArg String.length h
    rw [symCandidate, symCandidate, String.length_append, String.length_append] at hl
    have : ("_" : String).length = 1 := rfl
    omega
  | j + 1, k + 1 =>
    rw [symCandidate, symCandidate, String.append_assoc, String.append_assoc] at h
    have h2 := string_append_left_cancel _ _ _ h
    have h3 := string_append_left_cancel "_" _ _ h2
    have := nat_repr_injective (j + 1) (k + 1) h3
    omega

theorem symCandidate_free_exists (used : Finset String) (opName : String) :
    ∃ k, k < used.card + 1 ∧ symCandidate opName k ∉ used := by
  by_contra hcon
  push_neg at hcon
  have himg : (Finset.range (used.card + 1)).image (symCandidate opName) ⊆ used := by
    intro x hx
    simp only [Finset.mem_image, Finset.mem_range] at hx
    obtain ⟨k, hk, rfl⟩ := hx
    exact hcon k hk
  have hcard : ((Finset.range (used.card + 1)).image (symCandidate opName)).card
      = used.card + 1 := by
    rw [Finset.card_image_of_injective _ (symCandidate_injective opName)]
    exact Finset.card_range _
  have hle := Finset.card_le_card himg
  omega

theorem getUniqueSymNameAux_not_used (used : Finset String) (opName : String) :
    ∀ (fuel cnt : Nat),
      (∃ k, cnt ≤ k ∧ k < cnt + fuel ∧ symCandidate opName k ∉ used) →
      getUniqueSymNameAux used opName fuel cnt ∉ used := by
  intro fuel
  induction fuel with
  | zero =>
    intro cnt h
    obtain ⟨k, h1, h2, _⟩ := h
    omega
  | succ fuel ih =>
    intro cnt h
    obtain ⟨k, h1, h2, h3⟩ := h
    rw [getUniqueSymNameAux]
    by_cases hc : symCandidate opName cnt ∈ used
    · rw [if_pos hc]
      apply ih (cnt + 1)
      refine ⟨k, ?_, by omega, h3⟩
      rcases Nat.eq_or_lt_of_le h1 with rfl | hlt
      · exact absurd hc h3
      · exact hlt
    · rw [if_neg hc]
      exact hc

theorem getUniqueSymName_fresh (used : Finset String) (opName : String) :
    (getUniqueSymName used opName).1 ∉ used := by
  obtain ⟨k, hk, hfree⟩ := symCandidate_free_exists used (getBareOpName opName)
  exact getUniqueSymNameAux_not_used used (getBareOpName opName) (used.card + 1) 0
    ⟨k, Nat.zero_le k, by omega, hfree⟩

theorem runUniquer_not_in_used (ops : List String) :
    ∀ (used : Finset String), ∀ nm ∈ (runUniquer used ops).1, nm ∉ used := by
  induction ops with
  | nil => intro used nm h; simp [runUniquer] at h
  | cons op rest ih =>
    intro used nm h
    rw [runUniquer] at h
    rcases List.mem_cons.mp h with rfl | hmem
    · exact getUniqueSymName_fresh used op
    · intro hin
      exact ih (getUniqueSymName used op).2 nm hmem (Finset.mem_insert_of_mem hin)

theorem runUniquer_nodup (ops : List String) :
    ∀ used : Finset String, (runUniquer used ops).1.Nodup := by
  induction ops with
  | nil => intro used; simp [runUniquer]
  | cons op rest ih =>
    intro used
    rw [runUniquer]
    refine List.nodup_cons.mpr ⟨?_, ih _⟩
    intro hmem
    exact runUniquer_not_in_used rest (getUniqueSymName used op).2 _ hmem
      (Finset.mem_insert_self _ _)

/-- C9: over one pass run seeded with the pre-existing symbol set `S`, the
names synthesized by the shared `SymbolUniquer` (bare kind name first, then
`_1`, `_2`, ... suffixes until a free name is found, each chosen name being
immediately reserved) are pairwise distinct, and none of them belongs to
`S`. -/
theorem uniquer_names_distinct_and_fresh (S : Finset String) (ops : List String) :
    (runUniquer S ops).1.Nodup ∧ ∀ nm ∈ (runUniquer S ops).1, nm ∉ S :=
  ⟨runUniquer_nodup ops S, fun nm h => runUniquer_not_in_used ops S nm h⟩
